import Mathlib

/-!
Verification development for the `audio-sentence-detector` package.

The repository ships one current implementation of the class
`AudioSentenceDetector` (file `src/unnamed/part_000`, matching the public
typings) and an older variant at the tail of `src/src/index.js`
(lines 295-878).  The part_000 class is embedded in namespace `P0`
and the `src/src/index.js` tail variant in namespace `IJ`; definitions
shared verbatim by the two classes live at top level.

Modelling conventions:
* JavaScript numbers are modelled by `JNum`: a rational (`JNum.fin`),
  `NaN`, or a signed infinity.  Quantities the source keeps finite are
  modelled directly as `ℚ`.
* `Math.exp` is transcendental, so functions calling it take an explicit
  argument `expFn : ℚ → ℚ` standing for it; theorems either quantify over
  `expFn` or constrain it by `0 < expFn x` (true of the real exponential).
* The FFT-based voice classifier `isVoiceSegment` mixes irrational twiddle
  factors into every magnitude, so pipeline stages that call it take an
  oracle `vad : List ℚ → ℚ → Bool` standing for it; the post-FFT body of
  `isVoiceSegment` itself is embedded as `isVoiceGivenSpectrum`, with the
  magnitude spectrum passed explicitly.  Likewise `rmsOf : List ℚ → ℚ`
  stands for the `Math.sqrt`-based RMS of a window.
* JavaScript `end` is a reserved word in Lean, so the field is `end_`.
-/

/-- Model of a JavaScript IEEE number in exact arithmetic: a finite
rational, NaN, or a signed infinity (overflow to infinity by magnitude
growth is not modelled; the embedded code only reaches the non-finite
values through division by zero). -/
inductive JNum where
  | fin : ℚ → JNum
  | nan : JNum
  | pinf : JNum
  | ninf : JNum
deriving DecidableEq

namespace JNum

/-- JavaScript addition. -/
def jadd : JNum → JNum → JNum
  | nan, _ => nan
  | _, nan => nan
  | fin a, fin b => fin (a + b)
  | fin _, pinf => pinf
  | fin _, ninf => ninf
  | pinf, fin _ => pinf
  | ninf, fin _ => ninf
  | pinf, pinf => pinf
  | ninf, ninf => ninf
  | pinf, ninf => nan
  | ninf, pinf => nan

/-- JavaScript multiplication. -/
def jmul : JNum → JNum → JNum
  | nan, _ => nan
  | _, nan => nan
  | fin a, fin b => fin (a * b)
  | fin a, pinf => if a > 0 then pinf else if a < 0 then ninf else nan
  | fin a, ninf => if a > 0 then ninf else if a < 0 then pinf else nan
  | pinf, fin b => if b > 0 then pinf else if b < 0 then ninf else nan
  | ninf, fin b => if b > 0 then ninf else if b < 0 then pinf else nan
  | pinf, pinf => pinf
  | ninf, ninf => pinf
  | pinf, ninf => ninf
  | ninf, pinf => ninf

/-- JavaScript division (`0/0 = NaN`, `x/0 = ±Infinity` for `x ≠ 0`). -/
def jdiv : JNum → JNum → JNum
  | nan, _ => nan
  | _, nan => nan
  | fin a, fin b =>
      if b = 0 then (if a = 0 then nan else if a > 0 then pinf else ninf)
      else fin (a / b)
  | fin _, pinf => fin 0
  | fin _, ninf => fin 0
  | pinf, fin b => if b ≥ 0 then pinf else ninf
  | ninf, fin b => if b ≥ 0 then ninf else pinf
  | pinf, pinf => nan
  | pinf, ninf => nan
  | ninf, pinf => nan
  | ninf, ninf => nan

/-- JavaScript `<` (any comparison with NaN is false). -/
def jlt : JNum → JNum → Bool
  | nan, _ => false
  | _, nan => false
  | fin a, fin b => decide (a < b)
  | fin _, pinf => true
  | pinf, fin _ => false
  | ninf, fin _ => true
  | fin _, ninf => false
  | pinf, pinf => false
  | ninf, ninf => false
  | ninf, pinf => true
  | pinf, ninf => false

/-- JavaScript `>`. -/
def jgt (a b : JNum) : Bool := jlt b a

/-- JavaScript `Math.min` (NaN-propagating). -/
def jmin : JNum → JNum → JNum
  | nan, _ => nan
  | _, nan => nan
  | fin a, fin b => fin (min a b)
  | ninf, _ => ninf
  | _, ninf => ninf
  | pinf, x => x
  | x, pinf => x

/-- JavaScript `Math.max` (NaN-propagating). -/
def jmax : JNum → JNum → JNum
  | nan, _ => nan
  | _, nan => nan
  | fin a, fin b => fin (max a b)
  | pinf, _ => pinf
  | _, pinf => pinf
  | ninf, x => x
  | x, ninf => x

/-- The clamp `Math.max(0, Math.min(1, x))` used throughout the scorer. -/
def clamp01 (x : JNum) : JNum := jmax (fin 0) (jmin (fin 1) x)

end JNum

open JNum

/-- Caller-supplied option object: `none` models an absent (undefined)
field.  Field list mirrors the part_000 constructor (`src/unnamed/part_000`
lines 4-31); `formantFreqRanges` is absent because the constructor
hardcodes it. -/
structure RawOptions where
  minSilenceDuration : Option ℚ := none
  silenceThreshold : Option ℚ := none
  minSentenceLength : Option ℚ := none
  maxSentenceLength : Option ℚ := none
  windowSize : Option ℕ := none
  idealSentenceLength : Option ℚ := none
  idealSilenceDuration : Option ℚ := none
  allowGaps : Option Bool := none
  minSegmentLength : Option ℚ := none
  alignToAudioBoundaries : Option Bool := none
  fundamentalFreqMin : Option ℚ := none
  fundamentalFreqMax : Option ℚ := none
  voiceActivityThreshold : Option ℚ := none
  minVoiceActivityDuration : Option ℚ := none
  energySmoothing : Option ℚ := none
  formantEmphasis : Option ℚ := none
  zeroCrossingRateThreshold : Option ℚ := none
  debug : Option Bool := none

/-- Resolved configuration (`this.options` plus `this.debug`).
`windowSize` is kept as a natural number (it is used as a sample count). -/
structure Options where
  minSilenceDuration : ℚ
  silenceThreshold : ℚ
  minSentenceLength : ℚ
  maxSentenceLength : ℚ
  windowSize : ℕ
  idealSentenceLength : ℚ
  idealSilenceDuration : ℚ
  allowGaps : Bool
  minSegmentLength : ℚ
  alignToAudioBoundaries : Bool
  fundamentalFreqMin : ℚ
  fundamentalFreqMax : ℚ
  formantFreqRanges : List (ℚ × ℚ)
  voiceActivityThreshold : ℚ
  minVoiceActivityDuration : ℚ
  energySmoothing : ℚ
  formantEmphasis : ℚ
  zeroCrossingRateThreshold : ℚ
  debug : Bool
deriving DecidableEq

/-- JavaScript `x || d` for a numeric option: an absent field or an
explicit falsy value (`0`) yields the default. -/
def jsOrQ (x : Option ℚ) (d : ℚ) : ℚ :=
  match x with
  | none => d
  | some v => if v = 0 then d else v

/-- JavaScript `x || d` for the integer-valued `windowSize` option. -/
def jsOrN (x : Option ℕ) (d : ℕ) : ℕ :=
  match x with
  | none => d
  | some v => if v = 0 then d else v

/-- JavaScript `x || false` on a boolean-or-absent option. -/
def jsOrFalse (x : Option Bool) : Bool :=
  match x with
  | none => false
  | some b => b

/-- JavaScript `x !== undefined ? x : true` (the `allowGaps` pattern). -/
def jsUndefTrue (x : Option Bool) : Bool :=
  match x with
  | none => true
  | some b => b

/-- The fixed formant bands hardcoded by the constructor. -/
def formantBands : List (ℚ × ℚ) :=
  [(270, 730), (840, 2290), (1690, 3010)]

/-- The `AudioSentenceDetector` constructor (part_000 lines 4-31): every
numeric field is defaulted with `||`, `allowGaps` with an
`!== undefined` test, the booleans `alignToAudioBoundaries` and `debug`
with `|| false`. -/
def mkOptions (o : RawOptions) : Options where
  minSilenceDuration := jsOrQ o.minSilenceDuration (1/2)
  silenceThreshold := jsOrQ o.silenceThreshold (1/100)
  minSentenceLength := jsOrQ o.minSentenceLength 1
  maxSentenceLength := jsOrQ o.maxSentenceLength 15
  windowSize := jsOrN o.windowSize 2048
  idealSentenceLength := jsOrQ o.idealSentenceLength 5
  idealSilenceDuration := jsOrQ o.idealSilenceDuration (4/5)
  allowGaps := jsUndefTrue o.allowGaps
  minSegmentLength := jsOrQ o.minSegmentLength 0
  alignToAudioBoundaries := jsOrFalse o.alignToAudioBoundaries
  fundamentalFreqMin := jsOrQ o.fundamentalFreqMin 85
  fundamentalFreqMax := jsOrQ o.fundamentalFreqMax 255
  formantFreqRanges := formantBands
  voiceActivityThreshold := jsOrQ o.voiceActivityThreshold (2/5)
  minVoiceActivityDuration := jsOrQ o.minVoiceActivityDuration (1/10)
  energySmoothing := jsOrQ o.energySmoothing (19/20)
  formantEmphasis := jsOrQ o.formantEmphasis (7/10)
  zeroCrossingRateThreshold := jsOrQ o.zeroCrossingRateThreshold (3/10)
  debug := jsOrFalse o.debug

/-- Options produced by `new AudioSentenceDetector()` (all fields absent). -/
def defaultOptions : Options := mkOptions {}

/-- Zero-crossing rate (part_000 lines 33-42): fraction of adjacent-sample
sign changes, `crossings / (buffer.length - 1)`.  For a 1-sample buffer the
division is `0/0` (NaN), for an empty buffer `0/(-1) = 0`, exactly as in
JavaScript. -/
def calculateZeroCrossingRate (buffer : List ℚ) : JNum :=
  let crossings : ℕ := (buffer.zip buffer.tail).countP (fun p =>
    decide (p.2 ≥ 0 ∧ p.1 < 0) || decide (p.2 < 0 ∧ p.1 ≥ 0))
  jdiv (fin crossings) (fin ((buffer.length : ℤ) - 1))

/-- Spectral centroid (part_000 lines 44-56): energy-weighted mean
frequency, with the division-by-zero guard `sum === 0 ? 0 : ...` from the
source, so the result stays a finite rational. -/
def calculateSpectralCentroid (magnitudes : List ℚ) (sampleRate : ℚ) : ℚ :=
  let freqResolution := sampleRate / (magnitudes.length * 2)
  let weightedSum := (magnitudes.enum.map (fun im => (im.1 : ℚ) * freqResolution * im.2)).sum
  let sum := magnitudes.sum
  if sum = 0 then 0 else weightedSum / sum

/-- Energy of one formant band (the loop body of `detectFormants`,
part_000 lines 59-69): sum of the magnitudes whose bin index lies in
`[floor(min/res), ceil(max/res)]` (and below the spectrum length; the
source loop also starts at `minBin`, which is never negative for a
positive sample rate and non-negative band edges). -/
def bandEnergy (magnitudes : List ℚ) (sampleRate : ℚ) (band : ℚ × ℚ) : ℚ :=
  let minBin : ℤ := ⌊band.1 / (sampleRate / magnitudes.length / 2)⌋
  let maxBin : ℤ := ⌈band.2 / (sampleRate / magnitudes.length / 2)⌉
  ((magnitudes.enum.filter (fun im =>
    decide (minBin ≤ (im.1 : ℤ) ∧ (im.1 : ℤ) ≤ maxBin))).map (·.2)).sum

/-- Formant detection (part_000 lines 58-73): per-band energies, each
divided by the total spectral energy.  The division carries no zero
guard in the source, so a zero-energy spectrum yields `0/0 = NaN` for
every band. -/
def detectFormants (opts : Options) (magnitudes : List ℚ) (sampleRate : ℚ) : List JNum :=
  let formantScores := opts.formantFreqRanges.map (bandEnergy magnitudes sampleRate)
  let totalEnergy := magnitudes.sum
  formantScores.map (fun score => jdiv (fin score) (fin totalEnergy))

/-- Per-frequency weight of `calculateVoiceBandEnergy` (part_000 lines
132-147): `1.0` by default, raised to `2.0` in the fundamental range and
then overridden to `1.5` whenever a formant band contains the frequency. -/
def voiceWeight (opts : Options) (frequency : ℚ) : ℚ :=
  if opts.formantFreqRanges.any (fun r => decide (frequency ≥ r.1 ∧ frequency ≤ r.2)) then 3/2
  else if frequency ≥ opts.fundamentalFreqMin ∧ frequency ≤ opts.fundamentalFreqMax then 2
  else 1

/-- Voice-band energy ratio (part_000 lines 117-154): weighted energy in
`[fundamentalFreqMin, formantFreqRanges[2][1]]` divided by the total
energy — unguarded, so a zero-energy spectrum yields `0/0 = NaN`.
(When fewer than 3 formant ranges exist the source compares against
`undefined`, which is always false; `getD _ (0,0)` matches that for the
positive frequencies that occur, and options built by `mkOptions` always
carry 3 ranges.) -/
def calculateVoiceBandEnergy (opts : Options) (magnitudes : List ℚ) (sampleRate : ℚ) : JNum :=
  let freqResolution := sampleRate / (magnitudes.length * 2)
  let thirdFormantMax := (opts.formantFreqRanges.getD 2 (0, 0)).2
  let voiceBandEnergy := (magnitudes.enum.map (fun im =>
    let frequency := (im.1 : ℚ) * freqResolution
    if frequency ≥ opts.fundamentalFreqMin ∧ frequency ≤ thirdFormantMax then
      im.2 * voiceWeight opts frequency
    else 0)).sum
  let totalEnergy := magnitudes.sum
  jdiv (fin voiceBandEnergy) (fin totalEnergy)

/-- ZCR feature score of `isVoiceSegment` (part_000 line 90):
`1` iff `0.1 < zcr < zeroCrossingRateThreshold` (false on NaN). -/
def zcrScoreOf (opts : Options) (buffer : List ℚ) : JNum :=
  let zcr := calculateZeroCrossingRate buffer
  if jgt zcr (fin (1/10)) && jlt zcr (fin opts.zeroCrossingRateThreshold) then fin 1 else fin 0

/-- Centroid feature score of `isVoiceSegment` (part_000 line 91):
`1` iff the spectral centroid lies in `(100, 3000)`. -/
def centroidScoreOf (magnitudes : List ℚ) (sampleRate : ℚ) : JNum :=
  let spectralCentroid := calculateSpectralCentroid magnitudes sampleRate
  if spectralCentroid > 100 ∧ spectralCentroid < 3000 then fin 1 else fin 0

/-- Formant feature score of `isVoiceSegment` (part_000 line 92): the
count of band ratios exceeding `0.1`, divided by the number of bands.
NaN band ratios compare false and count 0. -/
def formantScoreOf (opts : Options) (magnitudes : List ℚ) (sampleRate : ℚ) : JNum :=
  let formantScores := detectFormants opts magnitudes sampleRate
  jdiv (fin (formantScores.countP (fun s => jgt s (fin (1/10)))))
    (fin formantScores.length)

/-- Voice-band-energy feature score of `isVoiceSegment` (part_000 line
93): `1` iff the ratio exceeds `voiceActivityThreshold` (false on NaN). -/
def energyScoreOf (opts : Options) (magnitudes : List ℚ) (sampleRate : ℚ) : JNum :=
  if jgt (calculateVoiceBandEnergy opts magnitudes sampleRate) (fin opts.voiceActivityThreshold)
  then fin 1 else fin 0

/-- Body of `isVoiceSegment` (part_000 lines 75-115) after the FFT: the
magnitude spectrum `performFFT(buffer)` is passed explicitly (its
irrational twiddle factors are outside the rational model).  The weight
vector in the source is `[0.3, 0.2, 0.3, 0.2]` applied in the order
zcr, centroid, formant, energy; the decision threshold is `0.6`. -/
def isVoiceGivenSpectrum (opts : Options) (buffer magnitudes : List ℚ) (sampleRate : ℚ) : Bool :=
  let finalScore :=
    jadd (jadd (jadd
      (jmul (zcrScoreOf opts buffer) (fin (3/10)))
      (jmul (centroidScoreOf magnitudes sampleRate) (fin (1/5))))
      (jmul (formantScoreOf opts magnitudes sampleRate) (fin (3/10))))
      (jmul (energyScoreOf opts magnitudes sampleRate) (fin (1/5)))
  jgt finalScore (fin (3/5))

/-- Weighted-sum combination rule written the way the specification
phrases it: a list of weights applied pointwise to the list of feature
scores and summed.  Used to compare the source's combination against the
weight vectors the specification asserts. -/
def specCombine (weights : List ℚ) (scores : List JNum) : JNum :=
  (weights.zip scores).foldl (fun acc ws => jadd acc (jmul ws.2 (fin ws.1))) (fin 0)

/-- Voice decision as claim C6 words it: weights zcr 0.3, centroid 0.3,
formant 0.2 (energy 0.2), threshold 0.6. -/
def isVoiceClaimC6 (opts : Options) (buffer magnitudes : List ℚ) (sampleRate : ℚ) : Bool :=
  jgt (specCombine [3/10, 3/10, 1/5, 1/5]
    [zcrScoreOf opts buffer, centroidScoreOf magnitudes sampleRate,
     formantScoreOf opts magnitudes sampleRate, energyScoreOf opts magnitudes sampleRate])
    (fin (3/5))

/-- Voice decision with the weight assignment the source actually uses
(zcr 0.3, centroid 0.2, formant 0.3, energy 0.2), in the
specification's list phrasing. -/
def isVoiceAmendedC6 (opts : Options) (buffer magnitudes : List ℚ) (sampleRate : ℚ) : Bool :=
  jgt (specCombine [3/10, 1/5, 3/10, 1/5]
    [zcrScoreOf opts buffer, centroidScoreOf magnitudes sampleRate,
     formantScoreOf opts magnitudes sampleRate, energyScoreOf opts magnitudes sampleRate])
    (fin (3/5))

/-- Capacity of the VAD smoothing buffer (part_000 line 282):
`Math.floor(0.1 * sampleRate / windowSize)`, with no lower bound.
(`windowSize = 0` would make the JS scan loop forever; the constructor
cannot produce it and it is excluded wherever it matters.) -/
def smoothingBufferSize (sampleRate : ℚ) (windowSize : ℕ) : ℤ :=
  ⌊(1/10 : ℚ) * sampleRate / (windowSize : ℚ)⌋

/-- One update of the sliding VAD buffer (part_000 lines 295-298): push
the new decision, then `shift` the oldest entry out when the length
exceeds the capacity. -/
def pushSmoothing (cap : ℤ) (buf : List Bool) (d : Bool) : List Bool :=
  let b := buf ++ [d]
  if (b.length : ℤ) > cap then b.tail else b

/-- Smoothed voice-activity ratio (part_000 line 301): fraction of `true`
entries in the buffer; `0/0 = NaN` on an empty buffer, as in JavaScript. -/
def voiceActivityRatio (buf : List Bool) : JNum :=
  jdiv (fin (buf.countP id)) (fin buf.length)

/-- A silent region `{start, end, duration, avgRMS}` (times in seconds). -/
structure Region where
  start : ℚ
  end_ : ℚ
  duration : ℚ
  avgRMS : ℚ
deriving DecidableEq

/-- Loop of `mergeCloseRegions` (part_000 lines 355-371): the running
`currentRegion` — which may itself already be a merger — is compared
against each next region and absorbed into it whenever the gap is
below 0.3 s; `avgRMS` is averaged pairwise. -/
def mergeCloseLoop (current : Region) : List Region → List Region
  | [] => [current]
  | nextRegion :: rest =>
    if nextRegion.start - current.end_ < 3/10 then
      mergeCloseLoop ⟨current.start, nextRegion.end_,
        nextRegion.end_ - current.start,
        (current.avgRMS + nextRegion.avgRMS) / 2⟩ rest
    else current :: mergeCloseLoop nextRegion rest

/-- Silent-region merging (part_000 lines 349-375 and the identical
`src/src/index.js` lines 709-735). -/
def mergeCloseRegions (regions : List Region) : List Region :=
  if regions.length < 2 then regions
  else
    match regions with
    | [] => []
    | r0 :: rest => mergeCloseLoop r0 rest

/-- Mutable state of the silence-detection scan (part_000 lines 276-279). -/
structure SilScan where
  buf : List Bool
  curStart : Option ℕ
  maxRMS : ℚ
  regions : List Region

/-- Start offsets of the analysis windows: `i = 0, ws, 2·ws, … < len`
(the JS `for` loop head at part_000 line 284). -/
def windowStarts (ws len : ℕ) : List ℕ :=
  (List.range ((len + ws - 1) / ws)).map (· * ws)

/-- One iteration of the silence-detection scan (part_000 lines 284-331):
slice the window, get its RMS (`rmsOf` oracle for `Math.sqrt`) and VAD
decision (`vad` oracle for `isVoiceSegment`), update the smoothing
buffer, and either extend/open a silent run or close it, emitting a
region when the run lasted at least `minSilenceDuration`. -/
def silStep (opts : Options) (vad : List ℚ → ℚ → Bool) (rmsOf : List ℚ → ℚ)
    (audioData : List ℚ) (sampleRate : ℚ) (st : SilScan) (i : ℕ) : SilScan :=
  let w := (audioData.drop i).take opts.windowSize
  let rms := rmsOf w
  let isVoice := vad w sampleRate
  let buf' := pushSmoothing (smoothingBufferSize sampleRate opts.windowSize) st.buf isVoice
  let isSmoothedVoice := jgt (voiceActivityRatio buf') (fin (3/5))
  if !isSmoothedVoice || decide (rms < opts.silenceThreshold) then
    match st.curStart with
    | none => { st with buf := buf', curStart := some i, maxRMS := rms }
    | some _ => { st with buf := buf', maxRMS := max st.maxRMS rms }
  else
    match st.curStart with
    | some s =>
      let silenceDuration := ((i : ℚ) - (s : ℚ)) / sampleRate
      let regions' :=
        if silenceDuration ≥ opts.minSilenceDuration then
          st.regions ++ [⟨(s : ℚ) / sampleRate, (i : ℚ) / sampleRate, silenceDuration, st.maxRMS⟩]
        else st.regions
      { buf := buf', curStart := none, maxRMS := 0, regions := regions' }
    | none => { st with buf := buf' }

/-- Silence detection (part_000 lines 273-347, and the line-identical
`src/src/index.js` lines 633-707): scan all windows, flush a trailing
open run, then merge close regions. -/
def detectSilentRegions (opts : Options) (vad : List ℚ → ℚ → Bool) (rmsOf : List ℚ → ℚ)
    (audioData : List ℚ) (sampleRate : ℚ) : List Region :=
  let final := (windowStarts opts.windowSize audioData.length).foldl
    (silStep opts vad rmsOf audioData sampleRate) ⟨[], none, 0, []⟩
  let silentRegions :=
    match final.curStart with
    | some s =>
      let silenceDuration := ((audioData.length : ℚ) - (s : ℚ)) / sampleRate
      if silenceDuration ≥ opts.minSilenceDuration then
        final.regions ++ [⟨(s : ℚ) / sampleRate, (audioData.length : ℚ) / sampleRate,
          silenceDuration, final.maxRMS⟩]
      else final.regions
    | none => final.regions
  mergeCloseRegions silentRegions

/-- JavaScript `ToIntegerOrInfinity` truncation (toward zero) of a finite
number, as applied by `Array.prototype.slice` to fractional indices. -/
def jsTrunc (q : ℚ) : ℤ := if q < 0 then ⌈q⌉ else ⌊q⌋

/-- Resolution of one slice index against a length: negative indices
count from the end, and both ends clamp into `[0, len]`. -/
def jsSliceIdx (len : ℕ) (x : ℤ) : ℕ :=
  if x < 0 then (max ((len : ℤ) + x) 0).toNat else min x.toNat len

/-- JavaScript `slice(a, b)` with integer arguments. -/
def jsSlice {α : Type} (l : List α) (a b : ℤ) : List α :=
  (l.take (jsSliceIdx l.length b)).drop (jsSliceIdx l.length a)

/-- JavaScript `slice(a, b)` with (possibly fractional) numeric arguments. -/
def jsSliceQ {α : Type} (l : List α) (a b : ℚ) : List α :=
  jsSlice l (jsTrunc a) (jsTrunc b)

/-- Energy-contour score (part_000 lines 478-507): split the segment into
50 ms windows, compute mean-square energies, count rises (`> ×1.1`) and
falls (`< ×0.9`), and return `clamp01(min(rises,falls)/max(rises,falls))`
— `0.5` when fewer than two windows exist.  When both counts are zero
(a flat contour) the division is `0/0 = NaN` and the clamp propagates it,
exactly as in JavaScript.  (A sample rate below 20 Hz would make
`windowSize` zero and hang the JS loop; that case is outside the model.) -/
def calculateEnergyContour (segment : List ℚ) (sampleRate : ℚ) : JNum :=
  let windowSize : ℕ := (Int.floor ((1/20 : ℚ) * sampleRate)).toNat
  let numWindows : ℕ := if windowSize = 0 then 0 else segment.length / windowSize
  let energies : List ℚ := (List.range numWindows).map (fun i =>
    let w := (segment.drop (i * windowSize)).take windowSize
    ((w.map (fun s => s * s)).sum) / (w.length : ℚ))
  if energies.length < 2 then fin (1/2)
  else
    let pairs := energies.zip energies.tail
    let risesCount : ℕ := pairs.countP (fun p => decide (p.2 > p.1 * (11/10)))
    let fallsCount : ℕ := pairs.countP (fun p => decide (p.2 < p.1 * (9/10)))
    clamp01 (jdiv (fin (min risesCount fallsCount : ℕ)) (fin (max risesCount fallsCount : ℕ)))

/-- The `{start, end, duration}` literal handed to the scorer. -/
structure SentenceSpan where
  start : ℚ
  end_ : ℚ
  duration : ℚ

/-- Multi-factor probability scorer (part_000 lines 377-476).
`expFn` stands for `Math.exp` (the real exponential maps finite inputs
to positive finite outputs; theorems quantify over `expFn` or constrain
it accordingly) and `vad` for `isVoiceSegment`.  Each sub-score is
clamped to `[0, 1]`; the weighted sum is clamped again — but the clamps
are `Math.max`/`Math.min`, which propagate NaN, so a NaN energy-contour
score makes the returned probability NaN.
(The source divides by `idealSentenceLength` and `silenceThreshold`;
a zero value there — which `mkOptions` cannot produce — would diverge
from this rational model, where division by zero yields 0.) -/
def calculateSentenceProbability (opts : Options) (expFn : ℚ → ℚ)
    (vad : List ℚ → ℚ → Bool) (sentence : SentenceSpan)
    (audioData : List ℚ) (sampleRate : ℚ) (silentRegion : Option Region) : JNum :=
  let lengthScore := fin (max 0 (min 1 (expFn
    (-(sentence.duration - opts.idealSentenceLength)^2 /
      (2 * (opts.idealSentenceLength / 2)^2)))))
  let silenceStrengthScore :=
    match silentRegion with
    | some r => fin (max 0 (min 1 (1 - r.avgRMS / opts.silenceThreshold)))
    | none => fin (3/10)
  let silenceDurationScore :=
    match silentRegion with
    | some r => fin (max 0 (min 1
        (1 / (1 + expFn (-5 * (r.duration / opts.idealSilenceDuration - 1/2))))))
    | none => fin (3/10)
  let windowSize : ℕ := (Int.floor ((1/10 : ℚ) * sampleRate)).toNat
  let startSampleIndex : ℤ := ⌊sentence.start * sampleRate⌋
  let endSampleIndex : ℤ := ⌊sentence.end_ * sampleRate⌋
  let startVoiceCount : ℚ := ((List.range 3).map (fun i =>
    let startOffset : ℚ := (i : ℚ) * ((windowSize : ℚ) / 2)
    let startWindow := jsSliceQ audioData ((startSampleIndex : ℚ) + startOffset)
      (min ((startSampleIndex : ℚ) + startOffset + (windowSize : ℚ)) (endSampleIndex : ℚ))
    if startWindow.length > 0 ∧ vad startWindow sampleRate then (1 : ℚ) else 0)).sum
  let endVoiceCount : ℚ := ((List.range 3).map (fun i =>
    let startOffset : ℚ := (i : ℚ) * ((windowSize : ℚ) / 2)
    let endWindow := jsSliceQ audioData
      (max ((endSampleIndex : ℚ) - (windowSize : ℚ) - startOffset) (startSampleIndex : ℚ))
      ((endSampleIndex : ℚ) - startOffset)
    if endWindow.length > 0 ∧ vad endWindow sampleRate then (1 : ℚ) else 0)).sum
  let startVoiceScore := startVoiceCount / 3
  let endVoiceScore := endVoiceCount / 3
  let voiceTransitionScore := fin (max 0 (min 1
    (startVoiceScore * (7/10) + (1 - endVoiceScore) * (3/10))))
  let energyContourScore := calculateEnergyContour
    (jsSlice audioData startSampleIndex endSampleIndex) sampleRate
  let probability :=
    jadd (jadd (jadd (jadd
      (jmul lengthScore (fin (1/4)))
      (jmul silenceStrengthScore (fin (3/20))))
      (jmul silenceDurationScore (fin (3/20))))
      (jmul voiceTransitionScore (fin (1/4))))
      (jmul energyContourScore (fin (1/5)))
  clamp01 probability

namespace P0

/-- A sentence of the part_000 class: `{index, start, end, duration,
probability}`. -/
structure Sentence where
  index : ℕ
  start : ℚ
  end_ : ℚ
  duration : ℚ
  probability : JNum
deriving DecidableEq

/-- The probability callback: `calculateSentenceProbability` applied to
`{start, end, duration: end - start}` and the optional bounding region
(audio data and sample rate are fixed by the enclosing call). -/
abbrev Prob := ℚ → ℚ → Option Region → JNum

/-- Overlong-span splitting (part_000 lines 542-574): cut the span into
`ceil(duration / maxSentenceLength)` equal parts; the final part's end is
snapped to the region start (or to the gap midpoint when `allowGaps` is
false and a next region exists), and only the final part is scored
against the region.  `accLen` is `sentences.length` at entry, so part
`j` gets index `accLen + j`. -/
def splitParts (opts : Options) (prob : Prob) (accLen : ℕ) (lastEnd sentenceDuration : ℚ)
    (region : Region) (next? : Option Region) : List Sentence :=
  let numParts : ℕ := (Int.ceil (sentenceDuration / opts.maxSentenceLength)).toNat
  let partDuration := sentenceDuration / (numParts : ℚ)
  (List.range numParts).map (fun (j : ℕ) =>
    let partStart := lastEnd + (j : ℚ) * partDuration
    let partEnd :=
      if j = numParts - 1 then
        match next? with
        | some nxt => if !opts.allowGaps then (region.end_ + nxt.start) / 2 else region.start
        | none => region.start
      else lastEnd + ((j : ℚ) + 1) * partDuration
    ⟨accLen + j, partStart, partEnd, partEnd - partStart,
      prob partStart partEnd (if j = numParts - 1 then some region else none)⟩)

/-- Region loop of `findSentenceBoundaries` (part_000 lines 515-582):
for each region, the span since `lastEnd` is emitted as one sentence
when its duration lies in `[minSentenceLength, maxSentenceLength]`,
split when longer, and dropped when shorter; `lastEnd` then advances to
the region end (or the gap midpoint when `allowGaps` is false and a next
region exists).  Returns the final `lastEnd` with the sentences. -/
def findLoop (opts : Options) (prob : Prob) :
    ℚ → List Sentence → List Region → ℚ × List Sentence
  | lastEnd, acc, [] => (lastEnd, acc)
  | lastEnd, acc, region :: rest =>
    let next? := rest.head?
    let sentenceDuration := region.start - lastEnd
    let acc' :=
      if opts.minSentenceLength ≤ sentenceDuration ∧
          sentenceDuration ≤ opts.maxSentenceLength then
        let segmentEnd :=
          match next? with
          | some nxt => if !opts.allowGaps then (region.end_ + nxt.start) / 2 else region.start
          | none => region.start
        acc ++ [⟨acc.length, lastEnd, segmentEnd, segmentEnd - lastEnd,
          prob lastEnd segmentEnd (some region)⟩]
      else if sentenceDuration > opts.maxSentenceLength then
        acc ++ splitParts opts prob acc.length lastEnd sentenceDuration region next?
      else acc
    let lastEnd' :=
      if opts.allowGaps then region.end_
      else
        match next? with
        | some nxt => (region.end_ + nxt.start) / 2
        | none => region.end_
    findLoop opts prob lastEnd' acc' rest

/-- Merging one group of sentences (part_000 lines 661-677): span from
the first member's start to the last member's end, probability averaged,
and — crucially — the index copied from the FIRST member, with no
renumbering.  (On the empty list the source returns `null`; the call
sites never pass one, and the model returns a zero sentence there.) -/
def mergeSegmentGroup : List Sentence → Sentence
  | [] => ⟨0, 0, 0, 0, fin 0⟩
  | [s] => s
  | s :: t :: rest =>
    let lastS := (t :: rest).getLast (List.cons_ne_nil t rest)
    let avgProbability := jdiv
      ((s :: t :: rest).foldl (fun a x => jadd a x.probability) (fin 0))
      (fin ((s :: t :: rest).length))
    ⟨s.index, s.start, lastS.end_, lastS.end_ - s.start, avgProbability⟩

/-- Cumulative duration of the pending group (part_000 line 626). -/
def groupDuration (group : List Sentence) : ℚ :=
  (group.map Sentence.duration).sum

/-- Loop of `mergeShortSegments` (part_000 lines 618-656), with the
pending group (`segmentsToMerge`) and output (`mergedSegments`) made
explicit: grow the group while its duration plus the next sentence stays
within `minSegmentLength`; otherwise flush it — keeping the next
sentence as the new group when the group already reached
`minSegmentLength`, and force-absorbing it before flushing when not.
A non-empty leftover group is flushed at the end. -/
def mergeLoop (m : ℚ) : List Sentence → List Sentence → List Sentence → List Sentence
  | acc, group, [] =>
    acc ++ (match group with
            | [] => []
            | _ => [mergeSegmentGroup group])
  | acc, group, segment :: rest =>
    match group with
    | [] => mergeLoop m acc [segment] rest
    | _ =>
      let currentDuration := groupDuration group
      if currentDuration + segment.duration ≤ m then
        mergeLoop m acc (group ++ [segment]) rest
      else if currentDuration ≥ m then
        mergeLoop m (acc ++ [mergeSegmentGroup group]) [segment] rest
      else
        mergeLoop m (acc ++ [mergeSegmentGroup (group ++ [segment])]) [] rest

/-- Short-segment merging (part_000 lines 611-659): lists of at most one
sentence pass through unchanged. -/
def mergeShortSegments (opts : Options) (sentences : List Sentence) : List Sentence :=
  if sentences.length ≤ 1 then sentences
  else mergeLoop opts.minSegmentLength [] [] sentences

/-- Sentence-boundary construction (part_000 lines 509-609): the region
loop, then one trailing sentence up to `totalDuration` when the
remainder is at least `minSentenceLength`, then the short-segment merge
when `minSegmentLength > 0`. -/
def findSentenceBoundaries (opts : Options) (prob : Prob)
    (silentRegions : List Region) (totalDuration : ℚ) : List Sentence :=
  let r := findLoop opts prob 0 [] silentRegions
  let lastEnd := r.1
  let withTrailing :=
    if lastEnd < totalDuration ∧ totalDuration - lastEnd ≥ opts.minSentenceLength then
      r.2 ++ [⟨r.2.length, lastEnd, totalDuration, totalDuration - lastEnd,
        prob lastEnd totalDuration none⟩]
    else r.2
  if opts.minSegmentLength > 0 then mergeShortSegments opts withTrailing
  else withTrailing

/-- Rewrite the last sentence's end to `total` and recompute its duration
(part_000 lines 264-266). -/
def setLastEnd (total : ℚ) : List Sentence → List Sentence
  | [] => []
  | [t] => [{ t with end_ := total, duration := total - t.start }]
  | t :: ts => t :: setLastEnd total ts

/-- The `alignToAudioBoundaries` post-pass of part_000 (lines 260-268):
only applied when at least one sentence exists — first start forced to 0,
last end forced to the total duration. -/
def alignSentences (total : ℚ) : List Sentence → List Sentence
  | [] => []
  | s :: rest => setLastEnd total ({ s with start := 0 } :: rest)

/-- The detection pipeline of part_000 (`detectSentences`, lines 244-271)
on decoded samples: silence detection, boundary construction with the
probability scorer wired in, then the optional boundary alignment. -/
def detectSentences (opts : Options) (expFn : ℚ → ℚ) (vad : List ℚ → ℚ → Bool)
    (rmsOf : List ℚ → ℚ) (audioData : List ℚ) (sampleRate : ℚ) : List Sentence :=
  let silenceMarkers := detectSilentRegions opts vad rmsOf audioData sampleRate
  let totalDuration := (audioData.length : ℚ) / sampleRate
  let sentences := findSentenceBoundaries opts
    (fun s e r => calculateSentenceProbability opts expFn vad ⟨s, e, e - s⟩ audioData sampleRate r)
    silenceMarkers totalDuration
  if opts.alignToAudioBoundaries then alignSentences totalDuration sentences
  else sentences

end P0

namespace IJ

/-- A sentence of the `src/src/index.js` tail class: `{index, start, end,
duration}` — this variant computes no probability. -/
structure Sentence where
  index : ℕ
  start : ℚ
  end_ : ℚ
  duration : ℚ
deriving DecidableEq

/-- Overlong-span splitting of the index.js variant (lines 761-782),
identical to `P0.splitParts` minus the probability field. -/
def splitParts (opts : Options) (accLen : ℕ) (lastEnd sentenceDuration : ℚ)
    (region : Region) (next? : Option Region) : List Sentence :=
  let numParts : ℕ := (Int.ceil (sentenceDuration / opts.maxSentenceLength)).toNat
  let partDuration := sentenceDuration / (numParts : ℚ)
  (List.range numParts).map (fun (j : ℕ) =>
    let partStart := lastEnd + (j : ℚ) * partDuration
    let partEnd :=
      if j = numParts - 1 then
        match next? with
        | some nxt => if !opts.allowGaps then (region.end_ + nxt.start) / 2 else region.start
        | none => region.start
      else lastEnd + ((j : ℚ) + 1) * partDuration
    ⟨accLen + j, partStart, partEnd, partEnd - partStart⟩)

/-- Region loop of the index.js `findSentenceBoundaries` (lines 742-790). -/
def findLoop (opts : Options) : ℚ → List Sentence → List Region → ℚ × List Sentence
  | lastEnd, acc, [] => (lastEnd, acc)
  | lastEnd, acc, region :: rest =>
    let next? := rest.head?
    let sentenceDuration := region.start - lastEnd
    let acc' :=
      if opts.minSentenceLength ≤ sentenceDuration ∧
          sentenceDuration ≤ opts.maxSentenceLength then
        let segmentEnd :=
          match next? with
          | some nxt => if !opts.allowGaps then (region.end_ + nxt.start) / 2 else region.start
          | none => region.start
        acc ++ [⟨acc.length, lastEnd, segmentEnd, segmentEnd - lastEnd⟩]
      else if sentenceDuration > opts.maxSentenceLength then
        acc ++ splitParts opts acc.length lastEnd sentenceDuration region next?
      else acc
    let lastEnd' :=
      if opts.allowGaps then region.end_
      else
        match next? with
        | some nxt => (region.end_ + nxt.start) / 2
        | none => region.end_
    findLoop opts lastEnd' acc' rest

/-- Group merging of the index.js variant (lines 861-875): like
`P0.mergeSegmentGroup` but with no probability to average. -/
def mergeSegmentGroup : List Sentence → Sentence
  | [] => ⟨0, 0, 0, 0⟩
  | [s] => s
  | s :: t :: rest =>
    let lastS := (t :: rest).getLast (List.cons_ne_nil t rest)
    ⟨s.index, s.start, lastS.end_, lastS.end_ - s.start⟩

/-- Cumulative duration of the pending group (index.js line 826). -/
def groupDuration (group : List Sentence) : ℚ :=
  (group.map Sentence.duration).sum

/-- Loop of the index.js `mergeShortSegments` (lines 818-850), same
control flow as `P0.mergeLoop`. -/
def mergeLoop (m : ℚ) : List Sentence → List Sentence → List Sentence → List Sentence
  | acc, group, [] =>
    acc ++ (match group with
            | [] => []
            | _ => [mergeSegmentGroup group])
  | acc, group, segment :: rest =>
    match group with
    | [] => mergeLoop m acc [segment] rest
    | _ =>
      let currentDuration := groupDuration group
      if currentDuration + segment.duration ≤ m then
        mergeLoop m acc (group ++ [segment]) rest
      else if currentDuration ≥ m then
        mergeLoop m (acc ++ [mergeSegmentGroup group]) [segment] rest
      else
        mergeLoop m (acc ++ [mergeSegmentGroup (group ++ [segment])]) [] rest

/-- Short-segment merging of the index.js variant (lines 811-859). -/
def mergeShortSegments (opts : Options) (sentences : List Sentence) : List Sentence :=
  if sentences.length ≤ 1 then sentences
  else mergeLoop opts.minSegmentLength [] [] sentences

/-- Sentence-boundary construction of the index.js variant (lines
737-809). -/
def findSentenceBoundaries (opts : Options) (silentRegions : List Region)
    (totalDuration : ℚ) : List Sentence :=
  let r := findLoop opts 0 [] silentRegions
  let lastEnd := r.1
  let withTrailing :=
    if lastEnd < totalDuration ∧ totalDuration - lastEnd ≥ opts.minSentenceLength then
      r.2 ++ [⟨r.2.length, lastEnd, totalDuration, totalDuration - lastEnd⟩]
    else r.2
  if opts.minSegmentLength > 0 then mergeShortSegments opts withTrailing
  else withTrailing

/-- Rewrite the last sentence's end to `total` (index.js lines 624-626). -/
def setLastEnd (total : ℚ) : List Sentence → List Sentence
  | [] => []
  | [t] => [{ t with end_ := total, duration := total - t.start }]
  | t :: ts => t :: setLastEnd total ts

/-- The index.js detection pipeline (`detectSentences`, lines 595-631):
the silence detector is line-identical to part_000's, so it is shared;
the `alignToAudioBoundaries` post-pass differs from part_000 in that an
EMPTY sentence list receives one sentence spanning the whole buffer. -/
def detectSentences (opts : Options) (vad : List ℚ → ℚ → Bool)
    (rmsOf : List ℚ → ℚ) (audioData : List ℚ) (sampleRate : ℚ) : List Sentence :=
  let silenceMarkers := detectSilentRegions opts vad rmsOf audioData sampleRate
  let totalDuration := (audioData.length : ℚ) / sampleRate
  let sentences := findSentenceBoundaries opts silenceMarkers totalDuration
  if opts.alignToAudioBoundaries then
    match sentences with
    | [] => [⟨0, 0, totalDuration, totalDuration⟩]
    | s :: rest =>
      setLastEnd totalDuration ((if s.start ≠ 0 then { s with start := 0 } else s) :: rest)
  else sentences

end IJ

/-- Whether a value is a well-defined fraction in `[0, 1]` (in particular
not NaN). -/
def isWellDefinedFraction : JNum → Bool
  | fin q => decide (0 ≤ q ∧ q ≤ 1)
  | _ => false

/-- Data-model invariants of a sentence list as the pipeline produces
them: chronologically ordered without overlap, with `duration` equal to
`end - start` and positive. -/
def WFSentences (l : List P0.Sentence) : Prop :=
  l.Chain' (fun a b => a.end_ ≤ b.start) ∧
  ∀ s ∈ l, s.duration = s.end_ - s.start ∧ 0 < s.duration

/-- Shape of `mergeShortSegments` output: every sentence but the last
reaches `minSegmentLength`, and all durations are positive. -/
def GoodOut (m : ℚ) (l : List P0.Sentence) : Prop :=
  (∀ x ∈ l.dropLast, m ≤ x.duration) ∧ ∀ x ∈ l, 0 < x.duration

namespace JNum

@[simp] theorem jadd_nan_left (x : JNum) : jadd nan x = nan := by cases x <;> rfl

@[simp] theorem jadd_nan_right (x : JNum) : jadd x nan = nan := by cases x <;> rfl

@[simp] theorem jadd_fin_fin (a b : ℚ) : jadd (fin a) (fin b) = fin (a + b) := rfl

@[simp] theorem jmul_nan_left (x : JNum) : jmul nan x = nan := by cases x <;> rfl

@[simp] theorem jmul_nan_right (x : JNum) : jmul x nan = nan := by cases x <;> rfl

@[simp] theorem jmul_fin_fin (a b : ℚ) : jmul (fin a) (fin b) = fin (a * b) := rfl

@[simp] theorem clamp01_nan : clamp01 nan = nan := rfl

@[simp] theorem clamp01_fin (q : ℚ) : clamp01 (fin q) = fin (max 0 (min 1 q)) := rfl

@[simp] theorem jgt_nan_left (x : JNum) : jgt nan x = false := by cases x <;> rfl

@[simp] theorem jgt_nan_right (x : JNum) : jgt x nan = false := by cases x <;> rfl

@[simp] theorem jgt_fin_fin (a b : ℚ) : jgt (fin a) (fin b) = decide (b < a) := rfl

/-- Adding a finite zero on the left is the identity, as in JavaScript. -/
@[simp] theorem jadd_fin_zero_left (x : JNum) : jadd (fin 0) x = x := by
  cases x <;> simp [jadd]

end JNum

/-- C10: at the constructor interface, every numeric field defaulted with
`||` treats an explicitly supplied `0` as absent and replaces it with
the built-in default — supplying `0` yields exactly the options of a
caller who omitted the field, so in particular `silenceThreshold = 0`
cannot be configured; `allowGaps` is the only option whose explicit
`false` differs from omission, while an explicit
`alignToAudioBoundaries: false` is indistinguishable from omission. -/
theorem C10_zero_replaced_by_default :
    mkOptions { minSilenceDuration := some 0 } = mkOptions {} ∧
    mkOptions { silenceThreshold := some 0 } = mkOptions {} ∧
    (mkOptions { silenceThreshold := some 0 }).silenceThreshold = 1/100 ∧
    mkOptions { minSentenceLength := some 0 } = mkOptions {} ∧
    mkOptions { maxSentenceLength := some 0 } = mkOptions {} ∧
    mkOptions { windowSize := some 0 } = mkOptions {} ∧
    mkOptions { idealSentenceLength := some 0 } = mkOptions {} ∧
    mkOptions { idealSilenceDuration := some 0 } = mkOptions {} ∧
    mkOptions { minSegmentLength := some 0 } = mkOptions {} ∧
    mkOptions { fundamentalFreqMin := some 0 } = mkOptions {} ∧
    mkOptions { fundamentalFreqMax := some 0 } = mkOptions {} ∧
    mkOptions { voiceActivityThreshold := some 0 } = mkOptions {} ∧
    mkOptions { zeroCrossingRateThreshold := some 0 } = mkOptions {} ∧
    (mkOptions { allowGaps := some false }).allowGaps = false ∧
    (mkOptions {}).allowGaps = true ∧
    mkOptions { alignToAudioBoundaries := some false } = mkOptions {} := by
  norm_num [mkOptions, jsOrQ, jsOrN, jsOrFalse, jsUndefTrue, Options.mk.injEq]

/-- C4 counterexample: three silent regions, each 0.2 s after the
previous one, collapse into a single region — the freshly merged region
IS re-checked against the region after it, against the claim that the
output would keep more than one region. -/
theorem C4_counterexample :
    mergeCloseRegions [⟨1, 2, 1, 1/100⟩, ⟨11/5, 3, 4/5, 1/100⟩, ⟨16/5, 4, 4/5, 3/100⟩]
      = [⟨1, 4, 3, 1/50⟩] := by
  norm_num [mergeCloseRegions, mergeCloseLoop, Region.mk.injEq]

/-- C4 amended: region merging is accumulative — whenever three
consecutive regions have both gaps below 0.3 s, the whole triple merges
into one region spanning from the first start to the last end, with the
pairwise-averaged RMS `((r0+r1)/2 + r2)/2`. -/
theorem C4_amended (r0 r1 r2 : Region)
    (h1 : r1.start - r0.end_ < 3/10) (h2 : r2.start - r1.end_ < 3/10) :
    mergeCloseRegions [r0, r1, r2] =
      [⟨r0.start, r2.end_, r2.end_ - r0.start,
        ((r0.avgRMS + r1.avgRMS) / 2 + r2.avgRMS) / 2⟩] := by
  simp only [mergeCloseRegions, mergeCloseLoop, List.length_cons, List.length_nil]
  norm_num [h1, h2]

/-- C4 witness: the amended merging law applied to a concrete triple of
close regions. -/
theorem C4_amended_witness :
    mergeCloseRegions [⟨0, 1, 1, 1/50⟩, ⟨6/5, 2, 4/5, 1/100⟩, ⟨21/10, 3, 9/10, 1/20⟩]
      = [⟨0, 3, 3, 13/400⟩] := by
  have h := C4_amended ⟨0, 1, 1, 1/50⟩ ⟨6/5, 2, 4/5, 1/100⟩ ⟨21/10, 3, 9/10, 1/20⟩
    (by norm_num) (by norm_num)
  exact h.trans (by norm_num [Region.mk.injEq])

/-- Ceiling evaluation helper: pins the integer ceiling of a rational. -/
theorem qceil_eq {q : ℚ} {z : ℤ} (h1 : (z : ℚ) - 1 < q) (h2 : q ≤ (z : ℚ)) : ⌈q⌉ = z :=
  Int.ceil_eq_iff.mpr ⟨h1, h2⟩

/-- C6 counterexample: a window with feature scores zcr 0, centroid 1,
formant 2/3, energy 1 (buffer `[1,1]`, spectrum `[0,1,0,0,0,0,0,0]` at
8 kHz).  The source weights (centroid 0.2, formant 0.3) give a final
score of exactly 0.6, which does NOT exceed the 0.6 threshold, so the
window is not voice; the weights the claim states (centroid 0.3,
formant 0.2) would give 19/30 > 0.6 and classify it as voice. -/
theorem C6_counterexample :
    isVoiceGivenSpectrum defaultOptions [1, 1] [0, 1, 0, 0, 0, 0, 0, 0] 8000 = false ∧
    isVoiceClaimC6 defaultOptions [1, 1] [0, 1, 0, 0, 0, 0, 0, 0] 8000 = true := by
  have hz : zcrScoreOf defaultOptions [1, 1] = fin 0 := by
    norm_num [zcrScoreOf, calculateZeroCrossingRate, List.countP_cons, List.countP_nil,
      jdiv, jgt, jlt, defaultOptions, mkOptions, jsOrQ]
  have hc : centroidScoreOf [0, 1, 0, 0, 0, 0, 0, 0] 8000 = fin 1 := by
    norm_num [centroidScoreOf, calculateSpectralCentroid, List.enum, List.enumFrom]
  have hb1 : bandEnergy [0, 1, 0, 0, 0, 0, 0, 0] 8000 (270, 730) = 1 := by
    norm_num [bandEnergy, List.enum, List.enumFrom,
      show (⌈(73:ℚ)/50⌉:ℤ) = 2 from qceil_eq (by norm_num) (by norm_num)]
  have hb2 : bandEnergy [0, 1, 0, 0, 0, 0, 0, 0] 8000 (840, 2290) = 1 := by
    norm_num [bandEnergy, List.enum, List.enumFrom,
      show (⌈(229:ℚ)/50⌉:ℤ) = 5 from qceil_eq (by norm_num) (by norm_num)]
  have hb3 : bandEnergy [0, 1, 0, 0, 0, 0, 0, 0] 8000 (1690, 3010) = 0 := by
    norm_num [bandEnergy, List.enum, List.enumFrom,
      show (⌈(301:ℚ)/50⌉:ℤ) = 7 from qceil_eq (by norm_num) (by norm_num)]
  have hf : formantScoreOf defaultOptions [0, 1, 0, 0, 0, 0, 0, 0] 8000 = fin (2/3) := by
    norm_num [formantScoreOf, detectFormants, defaultOptions, mkOptions, formantBands,
      hb1, hb2, hb3, jdiv, jgt, jlt, List.countP_cons, List.countP_nil]
  have he : energyScoreOf defaultOptions [0, 1, 0, 0, 0, 0, 0, 0] 8000 = fin 1 := by
    norm_num [energyScoreOf, calculateVoiceBandEnergy, voiceWeight, defaultOptions,
      mkOptions, formantBands, jsOrQ, List.enum, List.enumFrom, jdiv, jgt, jlt]
  refine ⟨?_, ?_⟩
  · norm_num [isVoiceGivenSpectrum, hz, hc, hf, he, jadd, jmul, jgt, jlt]
  · norm_num [isVoiceClaimC6, specCombine, hz, hc, hf, he, jadd, jmul, jgt, jlt]

/-- C6 amended: `isVoiceSegment` combines the feature scores with the
weights zcr 0.3, centroid 0.2, formant 0.3, energy 0.2 (summing to 1)
and classifies the window as voice exactly when the weighted sum
strictly exceeds 0.6. -/
theorem C6_amended (opts : Options) (buffer magnitudes : List ℚ) (sampleRate : ℚ) :
    isVoiceGivenSpectrum opts buffer magnitudes sampleRate
      = isVoiceAmendedC6 opts buffer magnitudes sampleRate := by
  simp [isVoiceGivenSpectrum, isVoiceAmendedC6, specCombine]

/-- Membership helper: the payload of an enumerated entry is in the list. -/
theorem snd_mem_of_enumFrom {α : Type} :
    ∀ (l : List α) (n : ℕ) (p : ℕ × α), p ∈ l.enumFrom n → p.2 ∈ l := by
  intro l
  induction l with
  | nil => intro n p h; simp [List.enumFrom] at h
  | cons a as ih =>
    intro n p h
    simp only [List.enumFrom, List.mem_cons] at h
    rcases h with h | h
    · subst h; simp
    · exact List.mem_cons_of_mem _ (ih (n + 1) p h)

/-- Membership helper for `List.enum`. -/
theorem snd_mem_of_enum {α : Type} (l : List α) (p : ℕ × α) (h : p ∈ l.enum) : p.2 ∈ l :=
  snd_mem_of_enumFrom l 0 p h

/-- On an all-zero spectrum every formant band accumulates zero energy. -/
theorem bandEnergy_of_zeros (mags : List ℚ) (sr : ℚ) (band : ℚ × ℚ)
    (h : ∀ m ∈ mags, m = 0) : bandEnergy mags sr band = 0 := by
  apply List.sum_eq_zero
  intro x hx
  simp only [List.mem_map, List.mem_filter] at hx
  obtain ⟨p, ⟨hmem, _⟩, rfl⟩ := hx
  exact h p.2 (snd_mem_of_enum mags p hmem)

/-- On an all-zero spectrum all three formant ratios are `0/0 = NaN`:
the division in `detectFormants` has no zero guard. -/
theorem detectFormants_of_zeros (opts : Options) (mags : List ℚ) (sr : ℚ)
    (h : ∀ m ∈ mags, m = 0) (hr : opts.formantFreqRanges = formantBands) :
    detectFormants opts mags sr = [JNum.nan, JNum.nan, JNum.nan] := by
  have hsum : mags.sum = 0 := List.sum_eq_zero h
  simp [detectFormants, hr, formantBands, bandEnergy_of_zeros _ _ _ h, hsum, jdiv]

/-- On an all-zero spectrum the voice-band ratio is `0/0 = NaN`: the
division in `calculateVoiceBandEnergy` has no zero guard either. -/
theorem calculateVoiceBandEnergy_of_zeros (opts : Options) (mags : List ℚ) (sr : ℚ)
    (h : ∀ m ∈ mags, m = 0) : calculateVoiceBandEnergy opts mags sr = JNum.nan := by
  have hsum : mags.sum = 0 := List.sum_eq_zero h
  have hnum : ((mags.enum.map (fun im =>
      if (im.1 : ℚ) * (sr / (mags.length * 2)) ≥ opts.fundamentalFreqMin ∧
          (im.1 : ℚ) * (sr / (mags.length * 2)) ≤ (opts.formantFreqRanges.getD 2 (0, 0)).2 then
        im.2 * voiceWeight opts ((im.1 : ℚ) * (sr / (mags.length * 2)))
      else 0)).sum) = 0 := by
    apply List.sum_eq_zero
    intro x hx
    simp only [List.mem_map] at hx
    obtain ⟨p, hmem, rfl⟩ := hx
    have hp : p.2 = 0 := h p.2 (snd_mem_of_enum mags p hmem)
    split <;> simp [hp]
  simp only [calculateVoiceBandEnergy, hnum, hsum, jdiv]
  norm_num

/-- On an all-zero spectrum the guarded centroid resolves to 0. -/
theorem calculateSpectralCentroid_of_zeros (mags : List ℚ) (sr : ℚ)
    (h : ∀ m ∈ mags, m = 0) : calculateSpectralCentroid mags sr = 0 := by
  simp [calculateSpectralCentroid, List.sum_eq_zero h]

/-- A `0/x` quotient never exceeds a positive bound: it is `0` for
`x ≠ 0`, NaN for `x = 0`, and both compare false. -/
theorem jgt_zero_div_small (X c : ℚ) (hc : 0 < c) :
    jgt (jdiv (fin 0) (fin X)) (fin c) = false := by
  by_cases hX : X = 0
  · simp [jdiv, hX, jgt, jlt]
  · simp only [jdiv, hX, if_false, if_neg hX, zero_div, jgt, jlt]
    simpa using le_of_lt hc

/-- On an all-zero buffer the ZCR feature score is 0 (the rate is 0, or
NaN for a single-sample buffer; both fail the `0.1 < zcr` test). -/
theorem zcrScoreOf_of_zeros (opts : Options) (buffer : List ℚ)
    (h : ∀ b ∈ buffer, b = 0) : zcrScoreOf opts buffer = JNum.fin 0 := by
  have hcr : (buffer.zip buffer.tail).countP (fun p =>
      decide (p.2 ≥ 0 ∧ p.1 < 0) || decide (p.2 < 0 ∧ p.1 ≥ 0)) = 0 := by
    apply List.countP_eq_zero.mpr
    intro p hp
    have h1 : p.1 = 0 := h p.1 (List.of_mem_zip hp).1
    have h2 : p.2 = 0 := h p.2 (List.mem_of_mem_tail (List.of_mem_zip hp).2)
    simp [h1, h2]
  simp only [zcrScoreOf, calculateZeroCrossingRate, hcr, Nat.cast_zero,
    jgt_zero_div_small _ _ (by norm_num : (0:ℚ) < 1/10), Bool.false_and,
    Bool.false_eq_true, if_false]

/-- On an all-zero window `isVoiceSegment` still returns a well-defined
boolean, namely `false`: every comparison against the NaN ratios is
false, so all four feature scores are 0. -/
theorem isVoiceGivenSpectrum_of_zeros (opts : Options) (buffer mags : List ℚ) (sr : ℚ)
    (hb : ∀ b ∈ buffer, b = 0) (hm : ∀ m ∈ mags, m = 0)
    (hr : opts.formantFreqRanges = formantBands) :
    isVoiceGivenSpectrum opts buffer mags sr = false := by
  have hz := zcrScoreOf_of_zeros opts buffer hb
  have hc : centroidScoreOf mags sr = JNum.fin 0 := by
    norm_num [centroidScoreOf, calculateSpectralCentroid_of_zeros mags sr hm]
  have hf : formantScoreOf opts mags sr = JNum.fin 0 := by
    norm_num [formantScoreOf, detectFormants_of_zeros opts mags sr hm hr,
      List.countP_cons, List.countP_nil, jgt, jlt, jdiv]
  have he : energyScoreOf opts mags sr = JNum.fin 0 := by
    simp [energyScoreOf, calculateVoiceBandEnergy_of_zeros opts mags sr hm, jgt, jlt]
  norm_num [isVoiceGivenSpectrum, hz, hc, hf, he, jadd, jmul, jgt, jlt]

/-- C5 counterexample: on a window whose magnitude spectrum is all zero
(total spectral energy 0), the three formant-band ratios and the
voice-band ratio evaluate to NaN — not to the neutral value 0 that the
claim asserts. -/
theorem C5_counterexample :
    detectFormants defaultOptions [0, 0, 0, 0, 0, 0, 0, 0] 8000
      = [JNum.nan, JNum.nan, JNum.nan] ∧
    calculateVoiceBandEnergy defaultOptions [0, 0, 0, 0, 0, 0, 0, 0] 8000 = JNum.nan ∧
    JNum.nan ≠ JNum.fin 0 := by
  exact ⟨detectFormants_of_zeros _ _ _ (by simp) rfl,
    calculateVoiceBandEnergy_of_zeros _ _ _ (by simp), by simp⟩

/-- C5 amended: on a zero-total-energy window the spectral centroid is
guarded and resolves to 0, but the formant-band ratios and the
voice-band ratio are unguarded `0/0` divisions and evaluate to NaN;
because every comparison with NaN is false, `isVoiceSegment`
nevertheless returns the well-defined boolean `false`. -/
theorem C5_amended (raw : RawOptions) (buffer mags : List ℚ) (sr : ℚ)
    (hm : ∀ m ∈ mags, m = 0) (hb : ∀ b ∈ buffer, b = 0) :
    calculateSpectralCentroid mags sr = 0 ∧
    detectFormants (mkOptions raw) mags sr = [JNum.nan, JNum.nan, JNum.nan] ∧
    calculateVoiceBandEnergy (mkOptions raw) mags sr = JNum.nan ∧
    isVoiceGivenSpectrum (mkOptions raw) buffer mags sr = false :=
  ⟨calculateSpectralCentroid_of_zeros mags sr hm,
   detectFormants_of_zeros _ mags sr hm rfl,
   calculateVoiceBandEnergy_of_zeros _ mags sr hm,
   isVoiceGivenSpectrum_of_zeros _ buffer mags sr hb hm rfl⟩

/-- C5 witness: the amended statement at a concrete all-zero window. -/
theorem C5_amended_witness :
    calculateSpectralCentroid [0, 0, 0, 0] 22050 = 0 ∧
    detectFormants (mkOptions {}) [0, 0, 0, 0] 22050 = [JNum.nan, JNum.nan, JNum.nan] ∧
    calculateVoiceBandEnergy (mkOptions {}) [0, 0, 0, 0] 22050 = JNum.nan ∧
    isVoiceGivenSpectrum (mkOptions {}) [0, 0] [0, 0, 0, 0] 22050 = false :=
  C5_amended {} [0, 0] [0, 0, 0, 0] 22050 (by simp) (by simp)

/-- After an update against a capacity of at least 1, the smoothing
buffer is never empty. -/
theorem pushSmoothing_length_pos (cap : ℤ) (buf : List Bool) (d : Bool)
    (hcap : 1 ≤ cap) : 0 < (pushSmoothing cap buf d).length := by
  unfold pushSmoothing
  by_cases h : (((buf ++ [d]).length : ℤ) > cap)
  · rw [if_pos h]
    have h2 : (2 : ℤ) ≤ ((buf ++ [d]).length : ℤ) := by omega
    have h2' : 2 ≤ (buf ++ [d]).length := by exact_mod_cast h2
    have := List.length_tail (buf ++ [d])
    omega
  · rw [if_neg h]
    simp

/-- C7 counterexample: at `windowSize = 2048`, `sampleRate = 8000` the
smoothing-buffer capacity is `floor(800/2048) = 0`, not the claimed
minimum of 1; pushing a decision then immediately shifts it out, leaving
an empty buffer whose voice-activity ratio is `0/0 = NaN`. -/
theorem C7_counterexample :
    smoothingBufferSize 8000 2048 = 0 ∧
    pushSmoothing (smoothingBufferSize 8000 2048) [] true = [] ∧
    voiceActivityRatio (pushSmoothing (smoothingBufferSize 8000 2048) [] true)
      = JNum.nan := by
  have h0 : smoothingBufferSize 8000 2048 = 0 := by
    norm_num [smoothingBufferSize]
  refine ⟨h0, ?_, ?_⟩ <;>
    simp [h0, pushSmoothing, voiceActivityRatio, jdiv]

/-- C7 amended: the capacity is `floor(0.1 * sampleRate / windowSize)`
with no lower bound; it is at least 1 exactly when one window spans at
most 0.1 s, and in that regime the buffer is never empty after an
update, so the smoothed ratio is a well-defined fraction in `[0, 1]`. -/
theorem C7_amended (sampleRate : ℚ) (windowSize : ℕ) (buf : List Bool) (d : Bool)
    (hws : 0 < windowSize) (hcap : (windowSize : ℚ) ≤ sampleRate / 10) :
    1 ≤ smoothingBufferSize sampleRate windowSize ∧
    isWellDefinedFraction
      (voiceActivityRatio (pushSmoothing (smoothingBufferSize sampleRate windowSize) buf d))
      = true := by
  have hwq : (0 : ℚ) < (windowSize : ℚ) := by exact_mod_cast hws
  have hcap1 : 1 ≤ smoothingBufferSize sampleRate windowSize := by
    rw [smoothingBufferSize, Int.le_floor]
    have : (1 : ℚ) ≤ 1 / 10 * sampleRate / (windowSize : ℚ) := by
      rw [one_le_div hwq]
      calc (windowSize : ℚ) ≤ sampleRate / 10 := hcap
      _ = 1 / 10 * sampleRate := by ring
    exact_mod_cast this
  refine ⟨hcap1, ?_⟩
  have hlen := pushSmoothing_length_pos (smoothingBufferSize sampleRate windowSize) buf d hcap1
  set b := pushSmoothing (smoothingBufferSize sampleRate windowSize) buf d with hb
  have hLpos : (0 : ℚ) < (b.length : ℚ) := by exact_mod_cast hlen
  have hL : ((b.length : ℚ)) ≠ 0 := ne_of_gt hLpos
  have hcount : ((b.countP id : ℕ) : ℚ) ≤ (b.length : ℚ) := by
    exact_mod_cast List.countP_le_length id
  simp only [voiceActivityRatio, jdiv, if_neg hL, isWellDefinedFraction]
  rw [decide_eq_true_eq]
  constructor
  · positivity
  · rw [div_le_one hLpos]
    exact hcount

/-- C7 witness: the amended statement at 44.1 kHz with the default
window size of 2048 samples. -/
theorem C7_amended_witness :
    1 ≤ smoothingBufferSize 44100 2048 ∧
    isWellDefinedFraction
      (voiceActivityRatio (pushSmoothing (smoothingBufferSize 44100 2048) [true, false] true))
      = true :=
  C7_amended 44100 2048 [true, false] true (by norm_num) (by norm_num)

/-- C1 counterexample: with no detected silent regions, a 20-second
buffer and `maxSentenceLength = 15` (the default), the boundary builder
emits ONE trailing sentence of 20 s — not the two 10-second sentences
the claim asserts: the overlong-split rule is not applied to the
trailing span emitted after the region loop. -/
theorem C1_counterexample :
    (P0.findSentenceBoundaries defaultOptions (fun _ _ _ => JNum.fin 0) [] 20).length ≠ 2 ∧
    P0.findSentenceBoundaries defaultOptions (fun _ _ _ => JNum.fin 0) [] 20
      = [⟨0, 0, 20, 20, JNum.fin 0⟩] := by
  norm_num [P0.findSentenceBoundaries, P0.findLoop, P0.mergeShortSegments, defaultOptions,
    mkOptions, jsOrQ, P0.Sentence.mk.injEq]

/-- C1 amended: with no silent regions, the pipeline emits exactly one
sentence spanning the whole duration (scored with no bounding region)
whenever the duration is positive and at least `minSentenceLength` —
regardless of `maxSentenceLength`, because the trailing span is never
split. -/
theorem C1_amended (opts : Options) (prob : P0.Prob) (totalDuration : ℚ)
    (h1 : 0 < totalDuration) (h2 : opts.minSentenceLength ≤ totalDuration) :
    P0.findSentenceBoundaries opts prob [] totalDuration
      = [⟨0, 0, totalDuration, totalDuration - 0, prob 0 totalDuration none⟩] := by
  have h2' : totalDuration - 0 ≥ opts.minSentenceLength := by simpa using h2
  simp [P0.findSentenceBoundaries, P0.findLoop, P0.mergeShortSegments, h1, h2, h2']

/-- C1 witness: the amended statement on the claim's 20-second scenario
with the default configuration. -/
theorem C1_amended_witness :
    P0.findSentenceBoundaries defaultOptions (fun _ _ _ => JNum.fin (1/2)) [] 20
      = [⟨0, 0, 20, 20 - 0, JNum.fin (1/2)⟩] :=
  C1_amended defaultOptions (fun _ _ _ => JNum.fin (1/2)) 20 (by norm_num)
    (by norm_num [defaultOptions, mkOptions, jsOrQ])

/-- C3 counterexample: three 2-second sentences piped through the
short-segment merge with `minSegmentLength = 3` come out as two
sentences whose `index` fields are 0 and 2 — `mergeSegmentGroup` copies
the first member's index and nothing renumbers, so `sentences[1].index ≠ 1`. -/
theorem C3_counterexample :
    (P0.findSentenceBoundaries (mkOptions { minSegmentLength := some 3 })
        (fun _ _ _ => JNum.fin 0)
        [⟨2, 5/2, 1/2, 1/100⟩, ⟨9/2, 5, 1/2, 1/100⟩] 7).map P0.Sentence.index
      = [0, 2] := by
  norm_num [P0.findSentenceBoundaries, P0.findLoop, P0.mergeShortSegments, P0.mergeLoop,
    P0.mergeSegmentGroup, P0.groupDuration, mkOptions, jsOrQ, jsOrN, jsUndefTrue,
    jsOrFalse, List.getLast, jadd, jdiv]

/-- The region loop assigns `index := sentences.length` at every push, so
it preserves the invariant that the accumulated indices are exactly the
positions `0, 1, 2, …`. -/
theorem findLoop_indexes (opts : Options) (prob : P0.Prob) :
    ∀ (regions : List Region) (lastEnd : ℚ) (acc : List P0.Sentence),
      acc.map P0.Sentence.index = List.range acc.length →
      (P0.findLoop opts prob lastEnd acc regions).2.map P0.Sentence.index
        = List.range (P0.findLoop opts prob lastEnd acc regions).2.length := by
  intro regions
  induction regions with
  | nil => intro lastEnd acc h; simpa [P0.findLoop] using h
  | cons region rest ih =>
    intro lastEnd acc h
    rw [P0.findLoop]
    apply ih
    by_cases h1 : opts.minSentenceLength ≤ region.start - lastEnd ∧
        region.start - lastEnd ≤ opts.maxSentenceLength
    · simp only [if_pos h1]
      simp [h, List.range_succ]
    · simp only [if_neg h1]
      by_cases h2 : region.start - lastEnd > opts.maxSentenceLength
      · simp only [if_pos h2]
        rw [List.map_append, h, List.length_append]
        have hsplit : (P0.splitParts opts prob acc.length lastEnd
            (region.start - lastEnd) region rest.head?).map P0.Sentence.index
            = (List.range ((Int.ceil ((region.start - lastEnd) /
                opts.maxSentenceLength)).toNat)).map (fun j => acc.length + j) := by
          simp [P0.splitParts, List.map_map, Function.comp]
        rw [hsplit, List.range_add]
        simp [P0.splitParts]
      · simp only [if_neg h2]
        exact h

/-- C3 amended: when the merge pass is disabled (`minSegmentLength ≤ 0`,
the default), indices in the final list are unique and contiguous from
0 — `sentences[i].index = i`; the merge pass itself keeps only each
group's FIRST index, so after coalescing the indices remain strictly
increasing but need not be contiguous. -/
theorem C3_amended (opts : Options) (prob : P0.Prob) (regions : List Region)
    (totalDuration : ℚ) (hm : opts.minSegmentLength ≤ 0) :
    (P0.findSentenceBoundaries opts prob regions totalDuration).map P0.Sentence.index
      = List.range (P0.findSentenceBoundaries opts prob regions totalDuration).length := by
  unfold P0.findSentenceBoundaries
  have hloop := findLoop_indexes opts prob regions 0 [] (by simp)
  have hns : ¬ (0 < opts.minSegmentLength) := not_lt.mpr hm
  simp only [if_neg hns]
  by_cases ht : (P0.findLoop opts prob 0 [] regions).1 < totalDuration ∧
      totalDuration - (P0.findLoop opts prob 0 [] regions).1 ≥ opts.minSentenceLength
  · simp only [if_pos ht]
    simp [hloop, List.range_succ]
  · simp only [if_neg ht]
    exact hloop

/-- C3 witness: the amended statement on a concrete one-region input with
the default (merge-disabled) configuration. -/
theorem C3_amended_witness :
    (P0.findSentenceBoundaries defaultOptions (fun _ _ _ => JNum.fin 0)
        [⟨2, 3, 1, 1/100⟩] 7).map P0.Sentence.index
      = List.range (P0.findSentenceBoundaries defaultOptions (fun _ _ _ => JNum.fin 0)
        [⟨2, 3, 1, 1/100⟩] 7).length :=
  C3_amended defaultOptions (fun _ _ _ => JNum.fin 0) [⟨2, 3, 1, 1/100⟩] 7
    (by norm_num [defaultOptions, mkOptions, jsOrQ])

/-- C2: the five-factor scorer returns NaN on a sentence whose energy
contour is flat.  Concretely: sentence `[0, 0.1]` s over four zero
samples at 40 Hz, with no bounding silent region.  The energy contour
has two 50 ms windows of equal energy, so zero rises and zero falls, and
`min(0,0)/max(0,0) = 0/0 = NaN`; the `Math.max/Math.min` clamps
propagate the NaN into the returned probability — for every value of
`Math.exp` and every behaviour of the voice classifier.  This
contradicts the specified bound `0 ≤ probability ≤ 1`. -/
theorem C2_flat_contour_probability_nan (expFn : ℚ → ℚ) (vad : List ℚ → ℚ → Bool) :
    calculateSentenceProbability defaultOptions expFn vad ⟨0, 1/10, 1/10⟩
      [0, 0, 0, 0] 40 none = JNum.nan := by
  have hs : jsSlice ([0, 0, 0, 0] : List ℚ) 0 4 = [0, 0, 0, 0] := by
    norm_num [jsSlice, jsSliceIdx]
  have hc : calculateEnergyContour ([0, 0, 0, 0] : List ℚ) 40 = JNum.nan := by
    have h1 : (⌊(1/20 : ℚ) * 40⌋ : ℤ) = 2 := by norm_num
    have hws : ((⌊(1/20 : ℚ) * 40⌋).toNat) = 2 := by rw [h1]; rfl
    simp only [calculateEnergyContour, hws]
    norm_num [List.range_succ, List.range_zero, jdiv, jmin, jmax,
      clamp01, List.countP_cons, List.countP_nil, List.sum_cons, List.sum_nil]
  simp only [calculateSentenceProbability]
  norm_num [hs, hc]

/-- The constructor can never produce `windowSize = 0`: `0 || 2048`
falls back to the default. -/
theorem mkOptions_windowSize_pos (o : RawOptions) : 0 < (mkOptions o).windowSize := by
  simp only [mkOptions, jsOrN]
  cases h : o.windowSize with
  | none => norm_num
  | some v =>
    by_cases hv : v = 0
    · simp [hv]
    · simp [hv]; omega

/-- An empty buffer yields no analysis windows. -/
theorem windowStarts_zero_len (ws : ℕ) (hws : 0 < ws) : windowStarts ws 0 = [] := by
  unfold windowStarts
  have h : (0 + ws - 1) / ws = 0 := Nat.div_eq_of_lt (by omega)
  simp only [h, List.range_zero, List.map_nil]

/-- The silence detector returns no regions on an empty buffer. -/
theorem detectSilentRegions_nil (opts : Options) (vad : List ℚ → ℚ → Bool)
    (rmsOf : List ℚ → ℚ) (sampleRate : ℚ) (h : 0 < opts.windowSize) :
    detectSilentRegions opts vad rmsOf [] sampleRate = [] := by
  unfold detectSilentRegions
  simp [windowStarts_zero_len _ h, mergeCloseRegions]

/-- C8 counterexample: on a zero-length buffer with
`alignToAudioBoundaries = true`, the index.js variant returns a
one-element list holding a degenerate sentence `[0, 0]` — not the empty
list the claim asserts for every configuration. -/
theorem C8_counterexample :
    IJ.detectSentences (mkOptions { alignToAudioBoundaries := some true })
        (fun _ _ => false) (fun _ => 0) [] 44100 = [⟨0, 0, 0, 0⟩] ∧
    IJ.detectSentences (mkOptions { alignToAudioBoundaries := some true })
        (fun _ _ => false) (fun _ => 0) [] 44100 ≠ [] := by
  have hw := mkOptions_windowSize_pos { alignToAudioBoundaries := some true }
  have hregions := detectSilentRegions_nil
    (mkOptions { alignToAudioBoundaries := some true }) (fun _ _ => false) (fun _ => 0)
    44100 hw
  have hbody : IJ.detectSentences (mkOptions { alignToAudioBoundaries := some true })
      (fun _ _ => false) (fun _ => 0) [] 44100 = [⟨0, 0, 0, 0⟩] := by
    unfold IJ.detectSentences
    rw [hregions]
    norm_num [IJ.findSentenceBoundaries, IJ.findLoop, IJ.mergeShortSegments,
      mkOptions, jsOrQ, jsOrFalse]
  exact ⟨hbody, by rw [hbody]; simp⟩

/-- C8 amended: on a zero-length buffer, the part_000 pipeline returns
the empty list for EVERY configuration; the index.js variant returns the
empty list when `alignToAudioBoundaries` is false, and a single
degenerate whole-buffer sentence `{index 0, start 0, end 0, duration 0}`
when it is true. -/
theorem C8_amended (raw : RawOptions) (expFn : ℚ → ℚ) (vad : List ℚ → ℚ → Bool)
    (rmsOf : List ℚ → ℚ) (sampleRate : ℚ) (hsr : 0 < sampleRate) :
    P0.detectSentences (mkOptions raw) expFn vad rmsOf [] sampleRate = [] ∧
    IJ.detectSentences (mkOptions raw) vad rmsOf [] sampleRate
      = (if (mkOptions raw).alignToAudioBoundaries then [⟨0, 0, 0, 0⟩] else []) := by
  have hw := mkOptions_windowSize_pos raw
  have hregions := detectSilentRegions_nil (mkOptions raw) vad rmsOf sampleRate hw
  constructor
  · unfold P0.detectSentences
    rw [hregions]
    simp [P0.findSentenceBoundaries, P0.findLoop, P0.mergeShortSegments, P0.alignSentences]
  · unfold IJ.detectSentences
    rw [hregions]
    simp [IJ.findSentenceBoundaries, IJ.findLoop, IJ.mergeShortSegments]

/-- C8 witness: the amended statement at 44.1 kHz with alignment on. -/
theorem C8_amended_witness :
    P0.detectSentences (mkOptions { alignToAudioBoundaries := some true })
        (fun _ => 1) (fun _ _ => true) (fun _ => 0) [] 44100 = [] ∧
    IJ.detectSentences (mkOptions { alignToAudioBoundaries := some true })
        (fun _ _ => true) (fun _ => 0) [] 44100
      = (if (mkOptions { alignToAudioBoundaries := some true }).alignToAudioBoundaries
         then [⟨0, 0, 0, 0⟩] else []) :=
  C8_amended { alignToAudioBoundaries := some true } (fun _ => 1) (fun _ _ => true)
    (fun _ => 0) 44100 (by norm_num)

theorem groupDuration_singleton (s : P0.Sentence) : P0.groupDuration [s] = s.duration := by
  simp [P0.groupDuration]

theorem groupDuration_cons (a : P0.Sentence) (t : List P0.Sentence) :
    P0.groupDuration (a :: t) = a.duration + P0.groupDuration t := by
  simp [P0.groupDuration]

theorem groupDuration_append_single (g : List P0.Sentence) (s : P0.Sentence) :
    P0.groupDuration (g ++ [s]) = P0.groupDuration g + s.duration := by
  simp [P0.groupDuration]

/-- A group of positive-duration sentences has positive total duration. -/
theorem groupDuration_pos (g : List P0.Sentence) (hg : g ≠ [])
    (h : ∀ x ∈ g, 0 < x.duration) : 0 < P0.groupDuration g := by
  cases g with
  | nil => simp at hg
  | cons a t =>
    have ha := h a (by simp)
    have ht : 0 ≤ P0.groupDuration t := by
      apply List.sum_nonneg
      intro x hx
      simp only [List.mem_map] at hx
      obtain ⟨y, hy, rfl⟩ := hx
      exact le_of_lt (h y (by simp [hy]))
    rw [groupDuration_cons]
    linarith

/-- For a chronologically ordered group with honest duration fields, the
sum of member durations is at most the span from the first member's
start to the last member's end (gaps only add). -/
theorem groupDuration_le_span :
    ∀ (g : List P0.Sentence) (hne : g ≠ []),
      g.Chain' (fun a b => a.end_ ≤ b.start) →
      (∀ x ∈ g, x.duration = x.end_ - x.start) →
      P0.groupDuration g ≤ (g.getLast hne).end_ - (g.head hne).start := by
  intro g
  induction g with
  | nil => intro h; simp at h
  | cons a t ih =>
    intro _ hc hd
    cases t with
    | nil =>
      rw [groupDuration_singleton, hd a (by simp)]
      simp
    | cons b t2 =>
      have hab : a.end_ ≤ b.start := (List.chain'_cons.mp hc).1
      have hc' : (b :: t2).Chain' (fun x y => x.end_ ≤ y.start) :=
        (List.chain'_cons.mp hc).2
      have ihb := ih (by simp) hc' (fun x hx => hd x (by simp [hx]))
      have hda := hd a (by simp)
      rw [groupDuration_cons, hda, List.getLast_cons (by simp : (b :: t2) ≠ [])]
      simp only [List.head_cons]
      have hhead : (b :: t2).head (by simp) = b := rfl
      rw [hhead] at ihb
      linarith

/-- The merged sentence spans at least the total duration of its group. -/
theorem mergeSegmentGroup_duration_ge (g : List P0.Sentence) (hne : g ≠ [])
    (hc : g.Chain' (fun a b => a.end_ ≤ b.start))
    (hd : ∀ x ∈ g, x.duration = x.end_ - x.start) :
    P0.groupDuration g ≤ (P0.mergeSegmentGroup g).duration := by
  match g with
  | [s] => rw [groupDuration_singleton]; rfl
  | s :: t :: rest =>
    have hspan := groupDuration_le_span (s :: t :: rest) (by simp) hc hd
    have hL : (s :: t :: rest).getLast (by simp)
        = (t :: rest).getLast (by simp : (t :: rest) ≠ []) :=
      List.getLast_cons (by simp)
    rw [hL] at hspan
    simpa [P0.mergeSegmentGroup] using hspan

/-- The merged sentence of a positive-duration ordered group has
positive duration. -/
theorem mergeSegmentGroup_duration_pos (g : List P0.Sentence) (hne : g ≠ [])
    (hc : g.Chain' (fun a b => a.end_ ≤ b.start))
    (hd : ∀ x ∈ g, x.duration = x.end_ - x.start)
    (hp : ∀ x ∈ g, 0 < x.duration) :
    0 < (P0.mergeSegmentGroup g).duration :=
  lt_of_lt_of_le (groupDuration_pos g hne hp) (mergeSegmentGroup_duration_ge g hne hc hd)

/-- Loop invariant for `mergeShortSegments`: on a well-formed input, with
every already-flushed sentence at least `minSegmentLength` long, the
final output has every sentence positive and every non-final sentence at
least `minSegmentLength` long. -/
theorem mergeLoop_good (m : ℚ) :
    ∀ (rest group acc : List P0.Sentence),
      (group ++ rest).Chain' (fun a b => a.end_ ≤ b.start) →
      (∀ x ∈ group ++ rest, x.duration = x.end_ - x.start ∧ 0 < x.duration) →
      (∀ x ∈ acc, m ≤ x.duration ∧ 0 < x.duration) →
      GoodOut m (P0.mergeLoop m acc group rest) := by
  intro rest
  induction rest with
  | nil =>
    intro group acc hc hd hacc
    cases hg : group with
    | nil =>
      subst hg
      simp only [P0.mergeLoop, List.append_nil]
      exact ⟨fun x hx => (hacc x (List.dropLast_subset _ hx)).1,
        fun x hx => (hacc x hx).2⟩
    | cons a t =>
      subst hg
      rw [List.append_nil] at hc hd
      simp only [P0.mergeLoop]
      constructor
      · intro x hx
        rw [List.dropLast_concat] at hx
        exact (hacc x hx).1
      · intro x hx
        rcases List.mem_append.mp hx with h | h
        · exact (hacc x h).2
        · simp only [List.mem_singleton] at h
          subst h
          exact mergeSegmentGroup_duration_pos _ (by simp) hc
            (fun y hy => (hd y hy).1) (fun y hy => (hd y hy).2)
  | cons seg rs ih =>
    intro group acc hc hd hacc
    cases hg : group with
    | nil =>
      subst hg
      simp only [P0.mergeLoop]
      exact ih [seg] acc (by simpa using hc) (by simpa using hd) hacc
    | cons a t =>
      subst hg
      have hcg : ((a :: t) ++ [seg]).Chain' (fun x y => x.end_ ≤ y.start) := by
        have : ((a :: t) ++ [seg]) ++ rs = (a :: t) ++ seg :: rs := by simp
        exact (List.chain'_append.mp (by rw [this]; exact hc)).1
      have hcg0 : (a :: t).Chain' (fun x y => x.end_ ≤ y.start) :=
        (List.chain'_append.mp hc).1
      have hcrest : (seg :: rs).Chain' (fun x y => x.end_ ≤ y.start) :=
        (List.chain'_append.mp hc).2.1
      have hdg : ∀ x ∈ (a :: t) ++ [seg], x.duration = x.end_ - x.start ∧ 0 < x.duration := by
        intro x hx
        rcases List.mem_append.mp hx with h | h
        · exact hd x (List.mem_append.mpr (Or.inl h))
        · simp only [List.mem_singleton] at h
          exact hd x (by simp [h])
      simp only [P0.mergeLoop]
      by_cases h1 : P0.groupDuration (a :: t) + seg.duration ≤ m
      · rw [if_pos h1]
        apply ih ((a :: t) ++ [seg]) acc
        · simpa [List.append_assoc] using hc
        · intro x hx
          have heq : ((a :: t) ++ [seg]) ++ rs = (a :: t) ++ seg :: rs := by simp
          rw [heq] at hx
          exact hd x hx
        · exact hacc
      · rw [if_neg h1]
        by_cases h2 : P0.groupDuration (a :: t) ≥ m
        · rw [if_pos h2]
          apply ih [seg] (acc ++ [P0.mergeSegmentGroup (a :: t)])
          · simpa using hcrest
          · intro x hx
            exact hd x (by
              simp only [List.singleton_append] at hx
              exact List.mem_append.mpr (Or.inr hx))
          · intro x hx
            rcases List.mem_append.mp hx with h | h
            · exact hacc x h
            · simp only [List.mem_singleton] at h
              subst h
              refine ⟨le_trans h2 ?_, ?_⟩
              · exact mergeSegmentGroup_duration_ge _ (by simp) hcg0
                  (fun y hy => (hd y (List.mem_append.mpr (Or.inl hy))).1)
              · exact mergeSegmentGroup_duration_pos _ (by simp) hcg0
                  (fun y hy => (hd y (List.mem_append.mpr (Or.inl hy))).1)
                  (fun y hy => (hd y (List.mem_append.mpr (Or.inl hy))).2)
        · rw [if_neg h2]
          apply ih [] (acc ++ [P0.mergeSegmentGroup ((a :: t) ++ [seg])])
          · simpa using hcrest.tail
          · intro x hx
            simp only [List.nil_append] at hx
            exact hd x (List.mem_append.mpr (Or.inr (List.mem_cons_of_mem _ hx)))
          · intro x hx
            rcases List.mem_append.mp hx with h | h
            · exact hacc x h
            · simp only [List.mem_singleton] at h
              subst h
              have hge := mergeSegmentGroup_duration_ge ((a :: t) ++ [seg]) (by simp)
                hcg (fun y hy => (hdg y hy).1)
              have hsum : P0.groupDuration ((a :: t) ++ [seg])
                  = P0.groupDuration (a :: t) + seg.duration :=
                groupDuration_append_single _ _
              refine ⟨?_, ?_⟩
              · rw [hsum] at hge
                linarith [not_le.mp h1]
              · exact mergeSegmentGroup_duration_pos _ (by simp) hcg
                  (fun y hy => (hdg y hy).1) (fun y hy => (hdg y hy).2)

/-- On a list whose every non-final sentence already reaches
`minSegmentLength` (with all durations positive), the merge loop flushes
each sentence as a singleton group, reproducing the list unchanged. -/
theorem mergeLoop_id (m : ℚ) :
    ∀ (rest : List P0.Sentence) (o : P0.Sentence) (acc : List P0.Sentence),
      (∀ x ∈ (o :: rest).dropLast, m ≤ x.duration) →
      (∀ x ∈ o :: rest, 0 < x.duration) →
      P0.mergeLoop m acc [o] rest = acc ++ o :: rest := by
  intro rest
  induction rest with
  | nil =>
    intro o acc _ _
    simp [P0.mergeLoop, P0.mergeSegmentGroup]
  | cons seg rs ih =>
    intro o acc hdrop hpos
    have hdl : (o :: seg :: rs).dropLast = o :: (seg :: rs).dropLast := rfl
    have ho : m ≤ o.duration := hdrop o (by rw [hdl]; exact List.mem_cons_self o _)
    have hseg : 0 < seg.duration := hpos seg (by simp)
    simp only [P0.mergeLoop, groupDuration_singleton]
    rw [if_neg (by linarith), if_pos (by linarith)]
    have hmg : P0.mergeSegmentGroup [o] = o := rfl
    rw [hmg, ih seg (acc ++ [o])
      (fun x hx => hdrop x (by rw [hdl]; exact List.mem_cons_of_mem o hx))
      (fun x hx => hpos x (List.mem_cons_of_mem o hx))]
    simp

/-- C9: on a well-formed sentence list (ordered, `duration = end - start`,
positive durations) the short-segment merge is idempotent for every
positive `minSegmentLength`: the first pass leaves every non-final
output at least `minSegmentLength` long, so a second pass flushes each
output sentence unchanged. -/
theorem C9_merge_idempotent (opts : Options) (s : List P0.Sentence)
    (hm : 0 < opts.minSegmentLength) (hwf : WFSentences s) :
    P0.mergeShortSegments opts (P0.mergeShortSegments opts s)
      = P0.mergeShortSegments opts s := by
  by_cases hlen : s.length ≤ 1
  · have h1 : P0.mergeShortSegments opts s = s := by
      rw [P0.mergeShortSegments, if_pos hlen]
    rw [h1, h1]
  · have h1 : P0.mergeShortSegments opts s
        = P0.mergeLoop opts.minSegmentLength [] [] s := by
      rw [P0.mergeShortSegments, if_neg hlen]
    have hgood : GoodOut opts.minSegmentLength (P0.mergeShortSegments opts s) := by
      rw [h1]
      exact mergeLoop_good opts.minSegmentLength s [] []
        (by simpa using hwf.1) (by simpa using hwf.2) (by simp)
    by_cases h2 : (P0.mergeShortSegments opts s).length ≤ 1
    · rw [P0.mergeShortSegments, if_pos h2]
    · cases ho : P0.mergeShortSegments opts s with
      | nil => rw [ho] at h2; simp at h2
      | cons o rest =>
        rw [ho] at hgood h2
        rw [P0.mergeShortSegments, if_neg h2]
        simp only [P0.mergeLoop]
        rw [mergeLoop_id opts.minSegmentLength rest o [] hgood.1 hgood.2]
        simp

/-- C9 witness: idempotence on a concrete well-formed three-sentence
list with `minSegmentLength = 3` (a run on which a merge really fires). -/
theorem C9_merge_idempotent_witness :
    P0.mergeShortSegments (mkOptions { minSegmentLength := some 3 })
        (P0.mergeShortSegments (mkOptions { minSegmentLength := some 3 })
          [⟨0, 0, 2, 2, JNum.fin 0⟩, ⟨1, 2, 4, 2, JNum.fin 0⟩, ⟨2, 5, 7, 2, JNum.fin 0⟩])
      = P0.mergeShortSegments (mkOptions { minSegmentLength := some 3 })
          [⟨0, 0, 2, 2, JNum.fin 0⟩, ⟨1, 2, 4, 2, JNum.fin 0⟩, ⟨2, 5, 7, 2, JNum.fin 0⟩] :=
  C9_merge_idempotent (mkOptions { minSegmentLength := some 3 })
    [⟨0, 0, 2, 2, JNum.fin 0⟩, ⟨1, 2, 4, 2, JNum.fin 0⟩, ⟨2, 5, 7, 2, JNum.fin 0⟩]
    (by norm_num [mkOptions, jsOrQ])
    (by
      constructor
      · norm_num [List.chain'_cons]
      · intro x hx
        simp only [List.mem_cons, List.not_mem_nil, or_false] at hx
        rcases hx with rfl | rfl | rfl <;> norm_num)
